import Mathlib

/-!
Verification of the rigid-body L-system implementation (`Anglerandom.py`).

The development shallowly embeds the program: strings are `List Char`,
Python floats are modelled by exact reals (`ℝ`, with the grammar-side
numeric parsing done in `ℚ`), the global `random` module is an explicit
stream of draws threaded through the turtle state, and the Blender calls
(`create_sphere`, `create_edge_mesh`, object instancing) are modelled as
an emitted list of geometry commands.
-/

set_option maxHeartbeats 1000000

namespace LSys

/-! ## Grammar engine (LSystem.generate / replaceProcess / replace) -/

/-- A rule set: the Python `rules` dict, as an association list from a
symbol to its replacement string. -/
abbrev Rules := List (Char × List Char)

/-- Embedding of `LSystem.replace`: `self.rules.get(char, char)`. -/
def replace (rules : Rules) (c : Char) : List Char :=
  (rules.lookup c).getD [c]

/-- Embedding of `LSystem.replaceProcess`: join of
`self.replace(char) for char in oldStr`. -/
def replaceProcess (rules : Rules) (oldStr : List Char) : List Char :=
  (oldStr.map (replace rules)).flatten

/-- The loop body of `LSystem.generate`: starting from `old`, perform `n`
rewriting steps, collecting each new string (the successive appends to
`self.resultStrs`). -/
def generateAux (rules : Rules) : ℕ → List Char → List (List Char)
  | 0, _ => []
  | n + 1, old =>
    let newStr := replaceProcess rules old
    newStr :: generateAux rules n newStr

/-- Embedding of `LSystem.generate` together with the initialisation
`self.resultStrs = [self.startStr]`: the production sequence kept on the
object.  `numIters` is a Python `int`, so it is modelled as `ℤ`;
`for i in range(self.numIters)` runs `max numIters 0` times. -/
def generate (numIters : ℤ) (startStr : List Char) (rules : Rules) : List (List Char) :=
  startStr :: generateAux rules numIters.toNat startStr

/-- Iterated rewriting, used to index into the production sequence. -/
def repIter (rules : Rules) : ℕ → List Char → List Char
  | 0, s => s
  | n + 1, s => repIter rules n (replaceProcess rules s)

theorem generateAux_length (rules : Rules) :
    ∀ (n : ℕ) (old : List Char), (generateAux rules n old).length = n := by
  intro n
  induction n with
  | zero => intro old; rfl
  | succ k ih => intro old; simp [generateAux, ih]

theorem generateAux_getD (rules : Rules) :
    ∀ (n : ℕ) (old : List Char) (i : ℕ), i < n →
      (generateAux rules n old).getD i [] = repIter rules (i + 1) old := by
  intro n
  induction n with
  | zero => intro old i h; omega
  | succ k ih =>
    intro old i h
    cases i with
    | zero => rfl
    | succ j =>
      have hj : j < k := by omega
      simpa [generateAux, repIter] using ih (replaceProcess rules old) j hj

/-- The example rule set from the spec scenario: `{A: "AB", B: "A"}`. -/
def exRules : Rules := [('A', ['A', 'B']), ('B', ['A'])]

/-- C1: for every RuleSet, start string and `numIters ≥ 0`, generation 0 of
the production sequence is exactly the start string, each generation `i+1`
is obtained from generation `i` by replacing every character independently
via RuleSet lookup (absent characters map to themselves) with results
concatenated left to right, and the example
`{A: "AB", B: "A"}`, start `"A"`, `numIters = 3` produces
`["A", "AB", "ABA", "ABAAB"]`. -/
theorem grammar_engine_correct (numIters : ℤ) (hn : 0 ≤ numIters)
    (startStr : List Char) (rules : Rules) :
    (generate numIters startStr rules).length = numIters.toNat + 1 ∧
    (generate numIters startStr rules).getD 0 [] = startStr ∧
    (∀ i : ℕ, (i : ℤ) < numIters →
      (generate numIters startStr rules).getD (i + 1) [] =
        replaceProcess rules ((generate numIters startStr rules).getD i [])) ∧
    (∀ s : List Char,
      replaceProcess rules s = (s.map (fun c => ((rules.lookup c).getD [c]))).flatten) ∧
    (∀ c : Char, rules.lookup c = none → replace rules c = [c]) ∧
    generate 3 ['A'] exRules =
      [['A'], ['A', 'B'], ['A', 'B', 'A'], ['A', 'B', 'A', 'A', 'B']] := by
  refine ⟨by simp [generate, generateAux_length], rfl, ?_, fun s => rfl, ?_, by decide⟩
  · intro i hi
    have hi' : i < numIters.toNat := by omega
    cases i with
    | zero =>
      simpa [generate, repIter] using generateAux_getD rules numIters.toNat startStr 0 hi'
    | succ j =>
      have hj : j < numIters.toNat := by omega
      have h1 := generateAux_getD rules numIters.toNat startStr (j + 1) hi'
      have h2 := generateAux_getD rules numIters.toNat startStr j hj
      simp only [generate, List.getD_cons_succ] at h1 h2 ⊢
      rw [h1, h2]
      clear h1 h2 hi hi' hj
      induction j generalizing startStr with
      | zero => rfl
      | succ k ih => exact ih (replaceProcess rules startStr)
  · intro c hc
    simp [replace, hc]

theorem grammar_engine_correct_witness :
    0 ≤ (3 : ℤ) ∧
    generate 3 ['A'] exRules =
      [['A'], ['A', 'B'], ['A', 'B', 'A'], ['A', 'B', 'A', 'A', 'B']] :=
  ⟨by decide, (grammar_engine_correct 3 (by decide) ['A'] exRules).2.2.2.2.2⟩

/-- C9 counterexample: constructing with `numIters = -1` does not fail at
all — `generate` runs `range(-1)`, i.e. zero rewriting iterations, and
succeeds with the production sequence `[startStr]`.  The code raises no
`InvalidGrammar` (no such check exists in the source). -/
theorem negative_iters_counterexample :
    generate (-1) ['A'] exRules = [['A']] := by decide

/-- C9 amended: for every `numIters < 0`, construction succeeds and the
production sequence is exactly `[startStr]` (the negative count behaves
like zero iterations; no error is raised). -/
theorem negative_iters_treated_as_zero (n : ℤ) (hn : n < 0)
    (s : List Char) (rules : Rules) :
    generate n s rules = [s] := by
  have h0 : n.toNat = 0 := Int.toNat_of_nonpos hn.le
  simp [generate, h0, generateAux]

theorem negative_iters_treated_as_zero_witness :
    (-2 : ℤ) < 0 ∧ generate (-2) ['G'] exRules = [['G']] :=
  ⟨by decide, negative_iters_treated_as_zero (-2) (by decide) ['G'] exRules⟩

/-! ## Parameter extraction (LSystem.extract_value)

The regex
`([A-Za-z\+\-\&\^<>\|])\(([\d\.]+)(?:,([\d\.]+))?\)` is embedded as a
deterministic matcher.  This is faithful: the character classes of the
two numeric groups exclude `,` and `)`, so after a maximal digit-and-dot
run the next character must literally be `,` or `)`, and any shorter
(backtracked) run would leave a digit-or-dot character there; hence the
greedy maximal-munch parse is the only possible match. -/

/-- The symbol class `[A-Za-z\+\-\&\^<>\|]` of the regex. -/
def symClass (c : Char) : Bool :=
  c.isAlpha || c = '+' || c = '-' || c = '&' || c = '^' ||
    c = '<' || c = '>' || c = '|'

/-- The numeric-group class `[\d\.]` of the regex. -/
def isDigitDot (c : Char) : Bool := c.isDigit || c = '.'

/-- Result of `re.match` in `extract_value`: the symbol character, the
first numeric group, and the optional second numeric group. -/
def regexExtract (tok : List Char) : Option (Char × List Char × Option (List Char)) :=
  match tok with
  | c :: '(' :: rest =>
    if symClass c then
      match rest.span isDigitDot with
      | ([], _) => none
      | (d1, ')' :: _) => some (c, d1, none)
      | (d1, ',' :: rest2) =>
        match rest2.span isDigitDot with
        | ([], _) => none
        | (d2, ')' :: _) => some (c, d1, some d2)
        | _ => none
      | _ => none
    else none
  | _ => none

/-- Decimal value of a digit string. -/
def natVal (s : List Char) : ℕ :=
  s.foldl (fun a c => 10 * a + (c.toNat - 48)) 0

/-- Python `float()` applied to a string drawn from the class `[\d\.]+`:
defined iff the string contains at most one `.` and at least one digit
(`"2"`, `"1.5"`, `".5"`, `"5."` parse; `"."`, `".."`, `"1.2.3"` raise
`ValueError`).  The exact rational value is returned. -/
def pyFloat (s : List Char) : Option ℚ :=
  let intPart := s.takeWhile (fun c => c ≠ '.')
  match s.dropWhile (fun c => c ≠ '.') with
  | [] => if s.isEmpty then none else some (natVal s)
  | _ :: frac =>
    if frac.any (fun c => c = '.') then none
    else if intPart.isEmpty ∧ frac.isEmpty then none
    else some ((natVal intPart : ℚ) + (natVal frac : ℚ) / ((10 : ℚ) ^ frac.length))

/-! ## Random source (the global `random` module) -/

/-- The state of the global pseudo-random generator: a stream of raw
draws in `[0, 1)` and the index of the next draw. -/
structure RNG where
  stream : ℕ → ℝ
  pos : ℕ

/-- Embedding of `random.uniform(a, b) = a + (b - a) * random()`,
advancing the stream by one draw. -/
noncomputable def uniform (a b : ℝ) (r : RNG) : ℝ × RNG :=
  (a + (b - a) * r.stream r.pos, ⟨r.stream, r.pos + 1⟩)

/-! ## Geometry (mathutils vectors and Euler rotations) -/

/-- A `mathutils.Vector` of length 3, with exact-real components. -/
structure Vec3 where
  x : ℝ
  y : ℝ
  z : ℝ

noncomputable def vadd (u v : Vec3) : Vec3 :=
  ⟨u.x + v.x, u.y + v.y, u.z + v.z⟩

noncomputable def vsmul (t : ℝ) (v : Vec3) : Vec3 :=
  ⟨t * v.x, t * v.y, t * v.z⟩

noncomputable def vnorm (v : Vec3) : ℝ :=
  Real.sqrt (v.x ^ 2 + v.y ^ 2 + v.z ^ 2)

/-- Embedding of `math.radians`. -/
noncomputable def radians (d : ℝ) : ℝ := d * Real.pi / 180

/-- Rotation of a vector about the global X axis. -/
noncomputable def rotX (t : ℝ) (v : Vec3) : Vec3 :=
  ⟨v.x, Real.cos t * v.y - Real.sin t * v.z, Real.sin t * v.y + Real.cos t * v.z⟩

/-- Rotation of a vector about the global Y axis. -/
noncomputable def rotY (t : ℝ) (v : Vec3) : Vec3 :=
  ⟨Real.cos t * v.x + Real.sin t * v.z, v.y, -Real.sin t * v.x + Real.cos t * v.z⟩

/-- Rotation of a vector about the global Z axis. -/
noncomputable def rotZ (t : ℝ) (v : Vec3) : Vec3 :=
  ⟨Real.cos t * v.x - Real.sin t * v.y, Real.sin t * v.x + Real.cos t * v.y, v.z⟩

/-- Application of `mathutils.Euler((a, b, c), 'XYZ')` to a vector:
rotation about X, then Y, then Z. -/
noncomputable def eulerXYZ (a b c : ℝ) (v : Vec3) : Vec3 :=
  rotZ c (rotY b (rotX a v))

/-! ## Geometry commands (the calls into Blender) -/

/-- The ordered geometry-command stream the interpreter emits:
`create_sphere` (the starting marker), `create_edge_mesh` via `add_line`
(a line segment), and `add_mesh_instance` (an instance placement with a
random Euler rotation triple). -/
inductive GeometryCommand
  | startMarker (loc : Vec3)
  | lineSegment (p q : Vec3)
  | instancePlacement (symbol : List Char) (loc : Vec3) (rot : Vec3)

/-- Recognises the starting-marker command. -/
def isMarker : GeometryCommand → Bool
  | .startMarker _ => true
  | _ => false

/-- Failure modes of the interpretation pass: `stack.pop()` on an empty
list (Python `IndexError`, the pop-on-empty condition) and `float()` on a
non-numeric string (Python `ValueError`). -/
inductive Err
  | unbalancedBranch
  | valueError
deriving DecidableEq

/-- The construction inputs used by `draw`: `step_length`,
`default_angle` (degrees), and the key set of `mesh_dict`. -/
structure Config where
  step_length : ℝ
  default_angle : ℝ
  meshDict : List (List Char)

/-- The running state of a drawing pass: `location`, `direction`, the
branch `stack`, the global random generator, and the commands emitted so
far. -/
structure TState where
  location : Vec3
  direction : Vec3
  stack : List (Vec3 × Vec3)
  rng : RNG
  cmds : List GeometryCommand

/-- Embedding of `LSystem.extract_value`: on a regex match, `float()` the
group(s) (possibly raising `ValueError`), resolving a two-value range
through `random.uniform`; otherwise return the whole instruction with no
value. -/
noncomputable def extract_value (tok : List Char) (r : RNG) :
    Except Err ((List Char × Option ℝ) × RNG) :=
  match regexExtract tok with
  | none => .ok ((tok, none), r)
  | some (c, d1, none) =>
    match pyFloat d1 with
    | none => .error .valueError
    | some q => .ok (([c], some (q : ℝ)), r)
  | some (c, d1, some d2) =>
    match pyFloat d1, pyFloat d2 with
    | some a, some b =>
      let v := uniform (a : ℝ) (b : ℝ) r
      .ok (([c], some v.1), v.2)
    | _, _ => .error .valueError

/-- Embedding of `LSystem.rotate_direction`: the per-symbol Euler table
applied to the direction vector (symbols outside the table leave it
unchanged). -/
noncomputable def rotate_direction (default_angle : ℝ) (symbol : List Char)
    (direction : Vec3) (value : Option ℝ) : Vec3 :=
  let angle := radians (value.getD default_angle)
  if symbol = ['+'] then eulerXYZ 0 0 angle direction
  else if symbol = ['-'] then eulerXYZ 0 0 (-angle) direction
  else if symbol = ['&'] then eulerXYZ angle 0 0 direction
  else if symbol = ['^'] then eulerXYZ (-angle) 0 0 direction
  else if symbol = ['<'] then eulerXYZ 0 angle 0 direction
  else if symbol = ['>'] then eulerXYZ 0 (-angle) 0 direction
  else if symbol = ['|'] then eulerXYZ 0 0 Real.pi direction
  else direction

/-- The dispatch on `(symbol, value)` in the body of `LSystem.draw`
(lines 106-121): instance placement (three `uniform(0, 2π)` draws for the
random Euler rotation), `F`, `f`, `[`, `]` (whose pop raises on an empty
stack), and the rotation fall-through. -/
noncomputable def execInstr (cfg : Config) (symbol : List Char) (value : Option ℝ)
    (s : TState) : TState × Option Err :=
  if symbol ∈ cfg.meshDict then
    let u1 := uniform 0 (2 * Real.pi) s.rng
    let u2 := uniform 0 (2 * Real.pi) u1.2
    let u3 := uniform 0 (2 * Real.pi) u2.2
    ({ s with
       rng := u3.2,
       cmds := s.cmds ++
         [.instancePlacement symbol s.location ⟨u1.1, u2.1, u3.1⟩] }, none)
  else if symbol = ['F'] then
    let step := value.getD cfg.step_length
    let newLoc := vadd s.location (vsmul step s.direction)
    ({ s with
       location := newLoc,
       cmds := s.cmds ++ [.lineSegment s.location newLoc] }, none)
  else if symbol = ['f'] then
    let step := value.getD cfg.step_length
    ({ s with location := vadd s.location (vsmul step s.direction) }, none)
  else if symbol = ['['] then
    ({ s with stack := (s.location, s.direction) :: s.stack }, none)
  else if symbol = [']'] then
    match s.stack with
    | [] => (s, some .unbalancedBranch)
    | (l, d) :: rest => ({ s with location := l, direction := d, stack := rest }, none)
  else
    ({ s with direction := rotate_direction cfg.default_angle symbol s.direction value },
      none)

/-- Embedding of Python `rule.find(')', index)`: index of the first
occurrence at position `index` or later, `none` when absent (`-1`). -/
def findFrom (l : List Char) (c : Char) (start : ℕ) : Option ℕ :=
  match (l.drop start).findIdx? (fun d => d = c) with
  | some k => some (start + k)
  | none => none

/-- The instruction-slicing step of the `draw` loop body: the single
character `rule[index]`, extended through the next `)` when
`rule[index + 1] == '('` and `index + 2 < len(rule)`; when no `)` exists,
`find` returns `-1`, so the slice `rule[index:0]` is empty and the
recorded end index is `-1`.  Returns the instruction and `end_index`. -/
def sliceInstr (rule : List Char) (index : ℕ) : List Char × ℤ :=
  if index + 2 < rule.length ∧ rule.getD (index + 1) ' ' = '(' then
    match findFrom rule ')' index with
    | some e => ((rule.drop index).take (e + 1 - index), (e : ℤ))
    | none => ([], -1)
  else ([rule.getD index ' '], (index : ℤ))

/-- One iteration of the `while index < len(rule)` loop in
`LSystem.draw`: slice out the instruction, extract the value, dispatch,
and return the next index (`end_index + 1` after the slice, or
`index + 1`). -/
noncomputable def drawBody (cfg : Config) (rule : List Char) (index : ℕ)
    (s : TState) : ℕ × TState × Option Err :=
  match extract_value (sliceInstr rule index).1 s.rng with
  | .error err => (((sliceInstr rule index).2 + 1).toNat, s, some err)
  | .ok ((symbol, value), r2) =>
    let step := execInstr cfg symbol value { s with rng := r2 }
    (((sliceInstr rule index).2 + 1).toNat, step.1, step.2)

/-- The `while` loop of `LSystem.draw` over one generation string, with a
fuel bound on the number of iterations (`none` = fuel exhausted, i.e. the
loop ran longer than `fuel` iterations). -/
noncomputable def drawLoop (cfg : Config) (rule : List Char) :
    ℕ → ℕ → TState → Option (TState × Option Err)
  | 0, _, _ => none
  | fuel + 1, index, s =>
    if index < rule.length then
      match drawBody cfg rule index s with
      | (_, s2, some err) => some (s2, some err)
      | (i2, s2, none) => drawLoop cfg rule fuel i2 s2
    else
      some (s, none)

/-- The `for rule in self.resultStrs` loop of `LSystem.draw`: every
generation string is interpreted in order, the running state carried
across generation boundaries; an exception aborts the pass. -/
noncomputable def drawStrs (cfg : Config) (fuel : ℕ) :
    List (List Char) → TState → Option (TState × Option Err)
  | [], s => some (s, none)
  | r :: rs, s =>
    match drawLoop cfg r fuel 0 s with
    | none => none
    | some (s2, some err) => some (s2, some err)
    | some (s2, none) => drawStrs cfg fuel rs s2

/-- The initial turtle state of `LSystem.draw`:
`direction = (0, 1, 0)`, `location = (0, 0, 0)`, empty stack, no
commands emitted yet. -/
def initState (r : RNG) : TState :=
  ⟨⟨0, 0, 0⟩, ⟨0, 1, 0⟩, [], r, []⟩

/-- Embedding of `LSystem.draw`: the starting sphere is created at the
origin, then every generation string is interpreted in sequence. -/
noncomputable def draw (cfg : Config) (fuel : ℕ) (strs : List (List Char))
    (r : RNG) : Option (TState × Option Err) :=
  drawStrs cfg fuel strs
    { initState r with cmds := [GeometryCommand.startMarker ⟨0, 0, 0⟩] }

/-- A whole seeded run: `LSystem.__init__` (which seeds the global
generator — from `mt seed` when a seed is given, otherwise from the
entropy source — and eagerly computes the production sequence) followed
by `draw`. `mt` abstracts the seeded Mersenne-Twister stream, `entropy`
the self-seeded one. -/
noncomputable def lsystemRun (mt : ℤ → ℕ → ℝ) (entropy : ℕ → ℝ) (cfg : Config)
    (fuel : ℕ) (numIters : ℤ) (startStr : List Char) (rules : Rules)
    (seed : Option ℤ) : Option (TState × Option Err) :=
  let r : RNG :=
    match seed with
    | some sd => ⟨mt sd, 0⟩
    | none => ⟨entropy, 0⟩
  draw cfg fuel (generate numIters startStr rules) r

/-! ## Fixed concrete data reused by scenarios and witnesses -/

/-- A concrete random stream (all raw draws 0), used in closed scenario
statements. -/
def rng0 : RNG := ⟨fun _ => (0 : ℝ), 0⟩

/-- A second concrete random stream, distinct from `rng0`. -/
noncomputable def entropy1 : ℕ → ℝ := fun n => (n : ℝ) + 1

/-- A concrete configuration: `step_length = 1`, `default_angle = 30`,
empty `mesh_dict`. -/
def cfg0 : Config := ⟨1, 30, []⟩

/-! ## C6: seeded determinism -/

/-- C6: with a fixed explicit seed and identical construction inputs, two
independent runs (construction plus full drawing pass) produce identical
geometry-command streams: the result does not depend on the entropy
source, which is consulted only when no seed is given.  `mt` is the
(arbitrary) seeded generator map, so the statement holds for every
possible underlying PRNG. -/
theorem seeded_determinism (mt : ℤ → ℕ → ℝ) (entropyA entropyB : ℕ → ℝ)
    (cfg : Config) (fuel : ℕ) (numIters : ℤ) (startStr : List Char)
    (rules : Rules) (sd : ℤ) :
    lsystemRun mt entropyA cfg fuel numIters startStr rules (some sd) =
      lsystemRun mt entropyB cfg fuel numIters startStr rules (some sd) := rfl

/-! ## C7: pop on an empty stack -/

/-- C7: interpreting `]` with an empty branch stack fails with the
pop-on-empty error (`stack.pop()` raising on an empty list), and the
one-instruction generation string `"]"` interpreted from an empty stack
produces that error with the state — in particular the emitted command
list — unchanged. -/
theorem pop_on_empty (cfg : Config) (v : Option ℝ) (fuel : ℕ) (s : TState)
    (hm : [']'] ∉ cfg.meshDict) (hs : s.stack = []) (hf : 1 ≤ fuel) :
    execInstr cfg [']'] v s = (s, some Err.unbalancedBranch) ∧
    drawLoop cfg [']'] fuel 0 s = some (s, some Err.unbalancedBranch) := by
  have hexec : execInstr cfg [']'] v s = (s, some Err.unbalancedBranch) := by
    simp [execInstr, hm, hs]
  have hexec0 : execInstr cfg [']'] none s = (s, some Err.unbalancedBranch) := by
    simp [execInstr, hm, hs]
  refine ⟨hexec, ?_⟩
  obtain ⟨k, rfl⟩ : ∃ k, fuel = k + 1 := ⟨fuel - 1, by omega⟩
  simp [drawLoop, drawBody, sliceInstr, extract_value, regexExtract, hexec0]

theorem pop_on_empty_witness :
    ([']'] ∉ cfg0.meshDict ∧ (initState rng0).stack = [] ∧ 1 ≤ 1) ∧
    execInstr cfg0 [']'] none (initState rng0) =
      (initState rng0, some Err.unbalancedBranch) ∧
    drawLoop cfg0 [']'] 1 0 (initState rng0) =
      some (initState rng0, some Err.unbalancedBranch) :=
  ⟨⟨by simp [cfg0], rfl, by decide⟩,
    pop_on_empty cfg0 none 1 (initState rng0) (by simp [cfg0]) rfl (by decide)⟩

/-! ## C8: unterminated parameter list -/

/-- The failing generation string `"F(2"`: a symbol followed by `(` with
no matching `)`. -/
def unterminated : List Char := ['F', '(', '2']

/-- C8 (behaviour at the failing input): on a generation string holding
an unmatched `(` (with `index + 2 < len(rule)`), `rule.find(')', index)`
returns `-1`, the sliced instruction is the empty string `rule[index:0]`,
the dispatch is a no-op, and `index` becomes `-1 + 1 = 0`: the loop
re-starts from index 0 in an unchanged state and therefore never
terminates, for every fuel bound.  No `MalformedInstruction` error is
raised — the source has no such check. -/
theorem unterminated_paren_loops (fuel : ℕ) (s : TState) :
    drawLoop cfg0 unterminated fuel 0 s = none := by
  induction fuel with
  | zero => rfl
  | succ k ih =>
    have hbody : drawBody cfg0 unterminated 0 s = (0, s, none) := rfl
    simpa [drawLoop, hbody] using ih

/-! ## Rotation helper lemmas -/

theorem rotX_zero (v : Vec3) : rotX 0 v = v := by
  simp [rotX]

theorem rotY_zero (v : Vec3) : rotY 0 v = v := by
  simp [rotY]

theorem rotZ_zero (v : Vec3) : rotZ 0 v = v := by
  simp [rotZ]

/-! ## Loop-stepping lemmas for `drawLoop` -/

theorem drawLoop_step (cfg : Config) (rule : List Char) (fuel index : ℕ) (s : TState)
    (hf : 1 ≤ fuel) (h : index < rule.length) :
    drawLoop cfg rule fuel index s =
      match drawBody cfg rule index s with
      | (_, s2, some err) => some (s2, some err)
      | (i2, s2, none) => drawLoop cfg rule (fuel - 1) i2 s2 := by
  obtain ⟨k, rfl⟩ : ∃ k, fuel = k + 1 := ⟨fuel - 1, by omega⟩
  simp [drawLoop, h]

theorem drawLoop_exit (cfg : Config) (rule : List Char) (fuel index : ℕ) (s : TState)
    (hf : 1 ≤ fuel) (h : ¬ index < rule.length) :
    drawLoop cfg rule fuel index s = some (s, none) := by
  obtain ⟨k, rfl⟩ : ∃ k, fuel = k + 1 := ⟨fuel - 1, by omega⟩
  simp [drawLoop, h]

/-! ## C2: forward motion and the drawing scenario -/

/-- The scenario instruction string `"F(2)+[F(1)]F(3)"`. -/
def scenStr : List Char :=
  ['F', '(', '2', ')', '+', '[', 'F', '(', '1', ')', ']', 'F', '(', '3', ')']

/-- C2: `F` moves forward by the parameter (or `step_length` when absent)
along the heading, emitting the corresponding line segment and updating
the position; `f` performs the identical position update without emitting
a command.  Consequently, interpreting `"F(2)+[F(1)]F(3)"` from position
`(0,0,0)`, heading `(0,1,0)` with `default_angle = 30` emits exactly the
segment `(0,0,0)-(0,2,0)`, then (after a 30-degree yaw of the heading and
a push) a unit-length segment from `(0,2,0)` along the yawed heading,
then (after the pop restores position `(0,2,0)` and the yawed heading) a
length-3 segment from `(0,2,0)` along that heading; the yawed heading has
unit norm, so those segments have lengths 1 and 3. -/
theorem forward_motion_semantics (cfg : Config) (v : Option ℝ) (s : TState)
    (hF : ['F'] ∉ cfg.meshDict) (hf2 : ['f'] ∉ cfg.meshDict) :
    (execInstr cfg ['F'] v s =
      ({ s with
         location := vadd s.location (vsmul (v.getD cfg.step_length) s.direction),
         cmds := s.cmds ++ [GeometryCommand.lineSegment s.location
           (vadd s.location (vsmul (v.getD cfg.step_length) s.direction))] }, none)) ∧
    (execInstr cfg ['f'] v s =
      ({ s with location := vadd s.location (vsmul (v.getD cfg.step_length) s.direction) },
        none)) ∧
    (∀ r : RNG, drawLoop cfg0 scenStr 20 0 ⟨⟨0, 0, 0⟩, ⟨0, 1, 0⟩, [], r, []⟩ =
      some (⟨vadd ⟨0, 2, 0⟩ (vsmul 3 (rotZ (radians 30) ⟨0, 1, 0⟩)),
              rotZ (radians 30) ⟨0, 1, 0⟩, [], r,
              [.lineSegment ⟨0, 0, 0⟩ ⟨0, 2, 0⟩,
               .lineSegment ⟨0, 2, 0⟩
                 (vadd ⟨0, 2, 0⟩ (vsmul 1 (rotZ (radians 30) ⟨0, 1, 0⟩))),
               .lineSegment ⟨0, 2, 0⟩
                 (vadd ⟨0, 2, 0⟩ (vsmul 3 (rotZ (radians 30) ⟨0, 1, 0⟩)))]⟩,
            none)) ∧
    vnorm (rotZ (radians 30) ⟨0, 1, 0⟩) = 1 := by
  refine ⟨?_, ?_, ?_, ?_⟩
  · simp [execInstr, hF]
  · simp [execInstr, hf2]
  · intro r
    simp +decide [drawLoop_step, drawLoop_exit, drawBody, sliceInstr, findFrom,
      extract_value, regexExtract, pyFloat, natVal, execInstr, rotate_direction,
      uniform, scenStr, cfg0, eulerXYZ, rotX_zero, rotY_zero, rotZ, vadd, vsmul,
      Vec3.mk.injEq]
  · simp only [vnorm, rotZ]
    ring_nf
    rw [show Real.cos (radians 30) ^ 2 + Real.sin (radians 30) ^ 2 = 1 from
      Real.cos_sq_add_sin_sq (radians 30)]
    exact Real.sqrt_one

theorem forward_motion_semantics_witness :
    execInstr cfg0 ['F'] none (initState rng0) =
      ({ initState rng0 with
         location := vadd (initState rng0).location
           (vsmul ((none : Option ℝ).getD cfg0.step_length) (initState rng0).direction),
         cmds := (initState rng0).cmds ++
           [GeometryCommand.lineSegment (initState rng0).location
             (vadd (initState rng0).location
               (vsmul ((none : Option ℝ).getD cfg0.step_length)
                 (initState rng0).direction))] }, none) :=
  (forward_motion_semantics cfg0 none (initState rng0)
    (by simp [cfg0]) (by simp [cfg0])).1

/-! ## C3: rotation semantics -/

/-- C3: each rotation instruction rotates the heading — and only the
heading — by `radians(parameter or default_angle)` about its
symbol-specific global axis and sign: `+`/`-` about the yaw (Z) axis by
`+angle`/`-angle`, `&`/`^` about the pitch (X) axis by `+angle`/`-angle`,
`<`/`>` about the roll (Y) axis by `+angle`/`-angle`, and `|` turns
around by `π` about the yaw axis ignoring any parameter. -/
theorem rotation_semantics (cfg : Config) (v : Option ℝ) (s : TState)
    (hm : ∀ t ∈ ([['+'], ['-'], ['&'], ['^'], ['<'], ['>'], ['|']] : List (List Char)),
      t ∉ cfg.meshDict) :
    (execInstr cfg ['+'] v s =
      ({ s with direction := rotZ (radians (v.getD cfg.default_angle)) s.direction },
        none)) ∧
    (execInstr cfg ['-'] v s =
      ({ s with direction := rotZ (-radians (v.getD cfg.default_angle)) s.direction },
        none)) ∧
    (execInstr cfg ['&'] v s =
      ({ s with direction := rotX (radians (v.getD cfg.default_angle)) s.direction },
        none)) ∧
    (execInstr cfg ['^'] v s =
      ({ s with direction := rotX (-radians (v.getD cfg.default_angle)) s.direction },
        none)) ∧
    (execInstr cfg ['<'] v s =
      ({ s with direction := rotY (radians (v.getD cfg.default_angle)) s.direction },
        none)) ∧
    (execInstr cfg ['>'] v s =
      ({ s with direction := rotY (-radians (v.getD cfg.default_angle)) s.direction },
        none)) ∧
    (execInstr cfg ['|'] v s =
      ({ s with direction := rotZ Real.pi s.direction }, none)) := by
  have h1 := hm ['+'] (by simp)
  have h2 := hm ['-'] (by simp)
  have h3 := hm ['&'] (by simp)
  have h4 := hm ['^'] (by simp)
  have h5 := hm ['<'] (by simp)
  have h6 := hm ['>'] (by simp)
  have h7 := hm ['|'] (by simp)
  refine ⟨?_, ?_, ?_, ?_, ?_, ?_, ?_⟩ <;>
    simp [execInstr, rotate_direction, eulerXYZ, rotX_zero, rotY_zero, rotZ_zero,
      h1, h2, h3, h4, h5, h6, h7]

theorem rotation_semantics_witness :
    execInstr cfg0 ['+'] none (initState rng0) =
      ({ initState rng0 with
         direction := rotZ (radians ((none : Option ℝ).getD cfg0.default_angle))
           (initState rng0).direction }, none) :=
  (rotation_semantics cfg0 none (initState rng0) (by simp [cfg0])).1

/-- A parsed instruction: symbol plus optional resolved parameter. -/
abbrev Instr := List Char × Option ℝ

/-- Interpretation of a list of already-parsed instructions through the
dispatch of `LSystem.draw`, stopping at the first error. -/
noncomputable def execInstrs (cfg : Config) : List Instr → TState → TState × Option Err
  | [], s => (s, none)
  | i :: rest, s =>
    match execInstr cfg i.1 i.2 s with
    | (s2, some e) => (s2, some e)
    | (s2, none) => execInstrs cfg rest s2

/-- Valid nesting of `[` and `]` in an instruction sequence. -/
inductive Balanced : List Instr → Prop
  | nil : Balanced []
  | other (sym : List Char) (v : Option ℝ) (rest : List Instr) :
      sym ≠ ['['] → sym ≠ [']'] → Balanced rest → Balanced ((sym, v) :: rest)
  | bracket (v u : Option ℝ) (inner rest : List Instr) :
      Balanced inner → Balanced rest →
      Balanced ((['['], v) :: (inner ++ (([']'], u) :: rest)))

theorem execInstr_nonbracket (cfg : Config) (sym : List Char) (v : Option ℝ) (s : TState)
    (h1 : sym ≠ ['[']) (h2 : sym ≠ [']']) :
    (execInstr cfg sym v s).2 = none ∧ (execInstr cfg sym v s).1.stack = s.stack := by
  by_cases hmem : sym ∈ cfg.meshDict
  · simp [execInstr, hmem]
  · by_cases hF : sym = ['F']
    · subst hF; simp [execInstr, hmem]
    · by_cases hf : sym = ['f']
      · subst hf; simp [execInstr, hmem]
      · simp [execInstr, hmem, hF, hf, h1, h2]

theorem execInstr_push (cfg : Config) (v : Option ℝ) (s : TState)
    (hm : ['['] ∉ cfg.meshDict) :
    execInstr cfg ['['] v s =
      ({ s with stack := (s.location, s.direction) :: s.stack }, none) := by
  simp [execInstr, hm]

theorem execInstr_pop (cfg : Config) (v : Option ℝ) (s : TState) (l d : Vec3)
    (t : List (Vec3 × Vec3)) (hm : [']'] ∉ cfg.meshDict) (hs : s.stack = (l, d) :: t) :
    execInstr cfg [']'] v s =
      ({ s with location := l, direction := d, stack := t }, none) := by
  simp [execInstr, hm, hs]

theorem execInstrs_append (cfg : Config) (l1 l2 : List Instr) (s : TState) :
    execInstrs cfg (l1 ++ l2) s =
      match execInstrs cfg l1 s with
      | (s2, none) => execInstrs cfg l2 s2
      | (s2, some e) => (s2, some e) := by
  induction l1 generalizing s with
  | nil => simp [execInstrs]
  | cons i rest ih =>
    simp only [List.cons_append, execInstrs]
    cases hstep : execInstr cfg i.1 i.2 s with
    | mk s2 e => cases e <;> simp [ih]

theorem balanced_run (cfg : Config) (hO : ['['] ∉ cfg.meshDict)
    (hC : [']'] ∉ cfg.meshDict) {w : List Instr} (hw : Balanced w) :
    ∀ s : TState, (execInstrs cfg w s).2 = none ∧
      (execInstrs cfg w s).1.stack = s.stack := by
  induction hw with
  | nil => intro s; simp [execInstrs]
  | other sym v rest h1 h2 hrest ih =>
    intro s
    have hnb := execInstr_nonbracket cfg sym v s h1 h2
    simp only [execInstrs]
    cases hstep : execInstr cfg sym v s with
    | mk s2 e =>
      rw [hstep] at hnb
      obtain ⟨he, hst⟩ := hnb
      simp only at he hst
      subst he
      simp only
      obtain ⟨ihe, ihst⟩ := ih s2
      exact ⟨ihe, by rw [ihst, hst]⟩
  | bracket v u inner rest hin hr ih1 ih2 =>
    intro s
    simp only [execInstrs]
    rw [execInstr_push cfg v s hO]
    simp only
    rw [execInstrs_append]
    obtain ⟨he, hst⟩ :=
      ih1 { s with stack := (s.location, s.direction) :: s.stack }
    cases hmid : execInstrs cfg inner
        { s with stack := (s.location, s.direction) :: s.stack } with
    | mk s2 e =>
      rw [hmid] at he hst
      simp only at he hst
      subst he
      simp only [execInstrs]
      rw [execInstr_pop cfg u s2 s.location s.direction s.stack hC (by rw [hst])]
      simp only
      obtain ⟨ihe, ihst⟩ :=
        ih2 { s2 with location := s.location, direction := s.direction, stack := s.stack }
      exact ⟨ihe, by rw [ihst]⟩



theorem balanced_wrap (cfg : Config) (hO : ['['] ∉ cfg.meshDict)
    (hC : [']'] ∉ cfg.meshDict) {w : List Instr} (hw : Balanced w)
    (v u : Option ℝ) (s : TState) :
    execInstrs cfg ((['['], v) :: (w ++ [([']'], u)])) s =
      ({ (execInstrs cfg w
            { s with stack := (s.location, s.direction) :: s.stack }).1 with
         location := s.location, direction := s.direction, stack := s.stack },
        none) := by
  simp only [execInstrs]
  rw [execInstr_push cfg v s hO]
  simp only
  rw [execInstrs_append]
  obtain ⟨he, hst⟩ :=
    balanced_run cfg hO hC hw { s with stack := (s.location, s.direction) :: s.stack }
  cases hmid : execInstrs cfg w
      { s with stack := (s.location, s.direction) :: s.stack } with
  | mk s2 e =>
    rw [hmid] at he hst
    simp only at he hst
    subst he
    simp only [execInstrs]
    rw [execInstr_pop cfg u s2 s.location s.direction s.stack hC (by rw [hst])]

/-- C4: for every instruction sequence with equal counts of well-nested
brackets, interpretation completes without the pop-on-empty error and
returns the stack to its pre-sequence value (in particular, a sequence
started on an empty stack ends with an empty stack); and wrapping such a
sequence in `[` ... `]` restores position, heading and stack to their
pre-branch values when the depth returns to the pre-sequence level. -/
theorem branch_stack_discipline (cfg : Config) (w : List Instr)
    (hO : ['['] ∉ cfg.meshDict) (hC : [']'] ∉ cfg.meshDict) (hw : Balanced w) :
    (∀ s : TState,
      (execInstrs cfg w s).2 = none ∧ (execInstrs cfg w s).1.stack = s.stack) ∧
    (∀ (v u : Option ℝ) (s : TState),
      (execInstrs cfg ((['['], v) :: (w ++ [([']'], u)])) s).2 = none ∧
      (execInstrs cfg ((['['], v) :: (w ++ [([']'], u)])) s).1.location = s.location ∧
      (execInstrs cfg ((['['], v) :: (w ++ [([']'], u)])) s).1.direction = s.direction ∧
      (execInstrs cfg ((['['], v) :: (w ++ [([']'], u)])) s).1.stack = s.stack) := by
  refine ⟨balanced_run cfg hO hC hw, ?_⟩
  intro v u s
  rw [balanced_wrap cfg hO hC hw v u s]
  simp

theorem branch_stack_discipline_witness :
    (execInstrs cfg0 [(['F'], (none : Option ℝ))] (initState rng0)).2 = none ∧
    (execInstrs cfg0 [(['F'], (none : Option ℝ))] (initState rng0)).1.stack =
      (initState rng0).stack :=
  (branch_stack_discipline cfg0 [(['F'], none)] (by simp [cfg0]) (by simp [cfg0])
    (Balanced.other ['F'] none [] (by decide) (by decide) Balanced.nil)).1
    (initState rng0)



theorem execInstr_cmds (cfg : Config) (sym : List Char) (v : Option ℝ) (s : TState) :
    ∃ t, (execInstr cfg sym v s).1.cmds = s.cmds ++ t ∧ t.countP isMarker = 0 := by
  by_cases hmem : sym ∈ cfg.meshDict
  · exact ⟨[.instancePlacement sym s.location
        ⟨(uniform 0 (2 * Real.pi) s.rng).1,
         (uniform 0 (2 * Real.pi) (uniform 0 (2 * Real.pi) s.rng).2).1,
         (uniform 0 (2 * Real.pi)
           (uniform 0 (2 * Real.pi) (uniform 0 (2 * Real.pi) s.rng).2).2).1⟩],
      by simp [execInstr, hmem], by simp [isMarker]⟩
  · by_cases hF : sym = ['F']
    · subst hF
      exact ⟨[.lineSegment s.location
          (vadd s.location (vsmul (v.getD cfg.step_length) s.direction))],
        by simp [execInstr, hmem], by simp [isMarker]⟩
    · by_cases hf : sym = ['f']
      · subst hf
        exact ⟨[], by simp [execInstr, hmem, hF], by simp⟩
      · by_cases hb : sym = ['[']
        · subst hb
          exact ⟨[], by simp [execInstr, hmem, hF, hf], by simp⟩
        · by_cases hc : sym = [']']
          · subst hc
            refine ⟨[], ?_, by simp⟩
            cases hs : s.stack with
            | nil => simp [execInstr, hmem, hF, hf, hb, hs]
            | cons p t => simp [execInstr, hmem, hF, hf, hb, hs]
          · exact ⟨[], by simp [execInstr, hmem, hF, hf, hb, hc], by simp⟩

theorem drawBody_cmds (cfg : Config) (rule : List Char) (index : ℕ) (s : TState) :
    ∃ t, (drawBody cfg rule index s).2.1.cmds = s.cmds ++ t ∧ t.countP isMarker = 0 := by
  unfold drawBody
  cases hev : extract_value (sliceInstr rule index).1 s.rng with
  | error e => exact ⟨[], by simp, by simp⟩
  | ok p =>
    obtain ⟨⟨sym, v⟩, r2⟩ := p
    simpa using execInstr_cmds cfg sym v { s with rng := r2 }

theorem drawLoop_cmds (cfg : Config) (rule : List Char) :
    ∀ (fuel index : ℕ) (s s2 : TState) (e : Option Err),
      drawLoop cfg rule fuel index s = some (s2, e) →
      ∃ t, s2.cmds = s.cmds ++ t ∧ t.countP isMarker = 0 := by
  intro fuel
  induction fuel with
  | zero => intro index s s2 e h; simp [drawLoop] at h
  | succ k ih =>
    intro index s s2 e h
    by_cases hidx : index < rule.length
    · rw [drawLoop, if_pos hidx] at h
      cases hb : drawBody cfg rule index s with
      | mk i2 p =>
        obtain ⟨sb, eb⟩ := p
        rw [hb] at h
        obtain ⟨t1, ht1, hc1⟩ : ∃ t, sb.cmds = s.cmds ++ t ∧ t.countP isMarker = 0 := by
          have := drawBody_cmds cfg rule index s
          rwa [hb] at this
        cases eb with
        | some err =>
          simp only at h
          obtain ⟨rfl, rfl⟩ : sb = s2 ∧ some err = e := by
            simpa using h
          exact ⟨t1, ht1, hc1⟩
        | none =>
          simp only at h
          obtain ⟨t2, ht2, hc2⟩ := ih i2 sb s2 e h
          exact ⟨t1 ++ t2, by rw [ht2, ht1, List.append_assoc],
            by simp [List.countP_append, hc1, hc2]⟩
    · rw [drawLoop, if_neg hidx] at h
      obtain ⟨rfl, rfl⟩ : s = s2 ∧ (none : Option Err) = e := by simpa using h
      exact ⟨[], by simp, by simp⟩

theorem drawStrs_cmds (cfg : Config) (fuel : ℕ) :
    ∀ (strs : List (List Char)) (s s2 : TState) (e : Option Err),
      drawStrs cfg fuel strs s = some (s2, e) →
      ∃ t, s2.cmds = s.cmds ++ t ∧ t.countP isMarker = 0 := by
  intro strs
  induction strs with
  | nil =>
    intro s s2 e h
    obtain ⟨rfl, rfl⟩ : s = s2 ∧ (none : Option Err) = e := by
      simpa [drawStrs] using h
    exact ⟨[], by simp, by simp⟩
  | cons r1 rs ih =>
    intro s s2 e h
    rw [drawStrs] at h
    cases hl : drawLoop cfg r1 fuel 0 s with
    | none => rw [hl] at h; simp at h
    | some p =>
      obtain ⟨sm, em⟩ := p
      rw [hl] at h
      obtain ⟨t1, ht1, hc1⟩ := drawLoop_cmds cfg r1 fuel 0 s sm em hl
      cases em with
      | some err =>
        simp only at h
        obtain ⟨rfl, rfl⟩ : sm = s2 ∧ some err = e := by simpa using h
        exact ⟨t1, ht1, hc1⟩
      | none =>
        simp only at h
        obtain ⟨t2, ht2, hc2⟩ := ih sm s2 e h
        exact ⟨t1 ++ t2, by rw [ht2, ht1, List.append_assoc],
          by simp [List.countP_append, hc1, hc2]⟩

/-- C5: a full drawing pass emits exactly one starting marker, at the
origin, as the very first command, before any generation string is
interpreted (no generation string ever emits another marker); and the
generation strings are interpreted in order with the running state —
position, heading, branch stack, random state and command stream —
carried across generation boundaries rather than reset. -/
theorem cumulative_replay (cfg : Config) (fuel : ℕ) (strs : List (List Char))
    (r : RNG) (s2 : TState) (e : Option Err)
    (h : draw cfg fuel strs r = some (s2, e)) :
    (∃ rest, s2.cmds = GeometryCommand.startMarker ⟨0, 0, 0⟩ :: rest ∧
      rest.countP isMarker = 0) ∧
    (∀ (r1 : List Char) (rs : List (List Char)) (s : TState),
      drawStrs cfg fuel (r1 :: rs) s =
        match drawLoop cfg r1 fuel 0 s with
        | none => none
        | some (s3, some err) => some (s3, some err)
        | some (s3, none) => drawStrs cfg fuel rs s3) := by
  constructor
  · unfold draw at h
    obtain ⟨t, ht, hc⟩ := drawStrs_cmds cfg fuel strs _ s2 e h
    exact ⟨t, by simpa [initState] using ht, hc⟩
  · intro r1 rs s
    rfl

theorem cumulative_replay_witness :
    ∃ rest,
      (⟨⟨0, 0, 0⟩, ⟨0, 1, 0⟩, [], rng0,
        [GeometryCommand.startMarker ⟨0, 0, 0⟩]⟩ : TState).cmds =
          GeometryCommand.startMarker ⟨0, 0, 0⟩ :: rest ∧
      rest.countP isMarker = 0 :=
  (cumulative_replay cfg0 1 [[]] rng0 _ none rfl).1

/-! ## C10: tokens whose parenthesised argument is not numeric -/

/-- C10 counterexample: the claim extends to every argument text that is
not a numeric literal, but the token `F(..)` — whose argument `..` is
made of dots only and is not a numeric literal — is matched by the regex
(`[\d\.]+` accepts it), and `float("..")` then raises `ValueError`
instead of the claimed parameterless-symbol return. -/
theorem malformed_arg_counterexample :
    pyFloat ['.', '.'] = none ∧
    extract_value ['F', '(', '.', '.', ')'] rng0 = Except.error Err.valueError ∧
    extract_value ['F', '(', '.', '.', ')'] rng0 ≠
      Except.ok (((['F', '(', '.', '.', ')'] : List Char), (none : Option ℝ)), rng0) := by
  refine ⟨by decide, rfl, ?_⟩
  rw [show extract_value ['F', '(', '.', '.', ')'] rng0 =
    Except.error Err.valueError from rfl]
  simp

/-- C10 amended: for every parenthesised token `symbol(arg)` that the
parameter regex does not match at all (for example the negative literal
`F(-2)`, whose `-` falls outside `[\d\.]`), `extract_value` returns no
parameter and the entire token as the symbol, and the interpreter treats
the whole token as an unrecognised instruction: it emits no geometry
command, leaves position, heading and the branch stack unchanged, and
reports no error.  (Tokens the regex does match but whose group fails
`float()`, such as `F(..)`, instead raise `ValueError` — see the
counterexample.) -/
theorem unrecognized_token_noop (cfg : Config) (c : Char) (rest : List Char)
    (r : RNG) (s : TState)
    (hre : regexExtract (c :: '(' :: rest) = none)
    (hm : (c :: '(' :: rest) ∉ cfg.meshDict) :
    extract_value (c :: '(' :: rest) r = .ok (((c :: '(' :: rest), none), r) ∧
    execInstr cfg (c :: '(' :: rest) none s = (s, none) := by
  constructor
  · simp [extract_value, hre]
  · simp [execInstr, hm, rotate_direction]

theorem unrecognized_token_noop_witness :
    extract_value ['F', '(', '-', '2', ')'] rng0 =
      Except.ok (((['F', '(', '-', '2', ')'] : List Char), (none : Option ℝ)), rng0) ∧
    execInstr cfg0 ['F', '(', '-', '2', ')'] none (initState rng0) =
      (initState rng0, none) :=
  unrecognized_token_noop cfg0 'F' ['-', '2', ')'] rng0 (initState rng0)
    (by decide) (by simp [cfg0])

end LSys
